import Mathlib

/-!
Shallow embedding of the locust load-generation script of the Key-Value-Cache
repository (src/locustfile.py, active code at lines 38-82).

Randomness is made explicit: every call the Python code makes into the random
module is a parameter of the embedding.
  - random.random() becomes the rational field coin of a RandomDraws record,
    constrained to the unit interval where a claim needs it;
  - random.choice(pool) becomes indexing of pool by a drawn natural number
    reduced modulo the pool length (a uniform draw of an index in range);
  - random.choices(string.printable, k=VALUE_LENGTH) becomes VALUE_LENGTH
    independent index draws into the printable alphabet;
  - uuid.uuid4() becomes a drawn 128 bit natural number, adjusted exactly as
    the CPython uuid module adjusts the variant and version bits, and then
    rendered in the canonical 8-4-4-4-12 lowercase hex format.

The HTTP client of the harness is modelled as a log of issued requests: the
post and get primitives append one request to the log.  Methods of CacheUser
contain no assignment, so their translation takes the user record and the
client log and returns the client log extended by what was issued.
-/

namespace KVCache

/-- Python string.printable: digits, lowercase, uppercase, punctuation and
whitespace, in that order, 100 characters in total. -/
def printableChars : List Char :=
  ("0123456789abcdefghijklmnopqrstuvwxyzABCDEFGHIJKLMNOPQRSTUVWXYZ" ++
   "!\"#$%&\x27()*+,-./:;<=>?@[\\]^_\x60\x7b|\x7d~ \t\n\r\x0b\x0c").toList

/-- Lowercase hexadecimal digits, as used by the percent-032x formatting of a
UUID integer. -/
def hexAlphabet : List Char := "0123456789abcdef".toList

/-- Hexadecimal digit for a value below 16. -/
def hexDigit (n : Nat) : Char := hexAlphabet.getD n '0'

/-- Numeric value of a hexadecimal digit character. -/
def hexVal (c : Char) : Nat := hexAlphabet.indexOf c

/-- Fixed-width big-endian hexadecimal rendering: toHexPad k n is the k digit
zero-padded lowercase hex string of n, as produced by percent-0kx formatting. -/
def toHexPad : Nat → Nat → List Char
  | 0, _ => []
  | k + 1, n => toHexPad k (n / 16) ++ [hexDigit (n % 16)]

/-- Decoder of a big-endian hexadecimal digit list, inverse of toHexPad. -/
def ofHexPad (l : List Char) : Nat := l.foldl (fun a c => 16 * a + hexVal c) 0

/-- CPython uuid.UUID with version 4: given the 128 random bits r, clear the
two variant bits and set the variant to RFC 4122, then clear the four version
bits and set the version to 4.  The Python complement mask (a bitwise not on a
value known to fit in 128 bits) is written as subtraction from 2 pow 128 - 1. -/
def uuid4Int (r : Nat) : Nat :=
  let n0 := r % 2 ^ 128
  let n1 := (n0 &&& (2 ^ 128 - 1 - (0xc000 <<< 48))) ||| (0x8000 <<< 48)
  (n1 &&& (2 ^ 128 - 1 - (0xf000 <<< 64))) ||| (0x4 <<< 76)

/-- Canonical UUID text layout: the 32 hex digits split 8-4-4-4-12 by hyphens,
as produced by str on a Python UUID. -/
def uuidFormat (l : List Char) : List Char :=
  l.take 8 ++ '-' :: ((l.drop 8).take 4 ++ '-' :: ((l.drop 12).take 4 ++
    '-' :: ((l.drop 16).take 4 ++ '-' :: l.drop 20)))

/-- str of uuid.uuid4() for the random draw r. -/
def uuid4Str (r : Nat) : String := String.mk (uuidFormat (toHexPad 32 (uuid4Int r)))

/-- Configuration constant KEY_POOL_SIZE of src/locustfile.py line 47. -/
def KEY_POOL_SIZE : Nat := 10000

/-- Configuration constant VALUE_LENGTH of src/locustfile.py line 48. -/
def VALUE_LENGTH : Nat := 256

/-- Configuration constant PUT_RATIO of src/locustfile.py line 49. -/
def PUT_RATIO : ℚ := 0.5

/-- Class attribute key_pool of CacheUser, line 57: a list comprehension of
str of uuid.uuid4() over range KEY_POOL_SIZE; kd i is the 128 bit draw the
uuid module makes for the element at index i. -/
def mkKeyPool (kd : Nat → Nat) : List String :=
  (List.range KEY_POOL_SIZE).map (fun i => uuid4Str (kd i))

/-- One element of the value pool: the join of random.choices over
string.printable with k equal to VALUE_LENGTH; vd j is the index draw for
position j. -/
def mkValue (vd : Nat → Nat) : String :=
  String.mk ((List.range VALUE_LENGTH).map
    (fun j => printableChars.getD (vd j % printableChars.length) ' '))

/-- Class attribute value_pool of CacheUser, line 58: a list comprehension of
mkValue over range KEY_POOL_SIZE; vd i supplies the draws for the element at
index i. -/
def mkValuePool (vd : Nat → Nat → Nat) : List String :=
  (List.range KEY_POOL_SIZE).map (fun i => mkValue (vd i))

/-- An outbound HTTP request as handed to the harness client: either a POST
with a path, a JSON object body of string fields, and a statistics name, or a
GET with a url (path plus query string) and a statistics name. -/
inductive Request where
  | post (path : String) (body : List (String × String)) (name : String)
  | get (url : String) (name : String)
deriving DecidableEq

/-- The harness HTTP client, reduced to what the script observes of it: the
log of requests issued so far. -/
structure Client where
  sent : List Request
deriving DecidableEq

/-- self.client.post of lines 71-75: issue a POST request. -/
def clientPost (c : Client) (path : String) (body : List (String × String))
    (nm : String) : Client :=
  { sent := c.sent ++ [Request.post path body nm] }

/-- self.client.get of lines 79-82: issue a GET request. -/
def clientGet (c : Client) (url : String) (nm : String) : Client :=
  { sent := c.sent ++ [Request.get url nm] }

/-- State of class CacheUser relevant to the generator: the two shared pools.
Lines 52-58; wait_time and the harness internals are external. -/
structure CacheUser where
  key_pool : List String
  value_pool : List String
deriving DecidableEq

/-- The pools as initialized at class creation, lines 57-58, from the uuid
draws kd and the printable-index draws vd. -/
def initUser (kd : Nat → Nat) (vd : Nat → Nat → Nat) : CacheUser :=
  { key_pool := mkKeyPool kd, value_pool := mkValuePool vd }

/-- Outcomes of the fresh random draws one invocation of the task can make:
the uniform unit-interval draw of random.random at line 63, the index draw of
random.choice on the key pool at line 69 or 78, and the index draw of
random.choice on the value pool at line 70. -/
structure RandomDraws where
  coin : ℚ
  keyIdx : Nat
  valIdx : Nat

/-- random.choice on a pool: the element at the uniformly drawn index, the
draw i being reduced modulo the pool length. -/
def randomChoice (pool : List String) (i : Nat) : String :=
  pool.getD (i % pool.length) ""

/-- Method put_request of lines 68-75: choose a key and a value and POST them
to /put as a JSON body with fields key and value, named /put. -/
def put_request (u : CacheUser) (c : Client) (d : RandomDraws) : Client :=
  let key := randomChoice u.key_pool d.keyIdx
  let value := randomChoice u.value_pool d.valIdx
  clientPost c "/put" [("key", key), ("value", value)] "/put"

/-- Method get_request of lines 77-82: choose a key and GET the url built by
the f-string from /get?key= and the key, named /get. -/
def get_request (u : CacheUser) (c : Client) (d : RandomDraws) : Client :=
  let key := randomChoice u.key_pool d.keyIdx
  clientGet c ("/get?key=" ++ key) "/get"

/-- Task mixed_load of lines 60-66: if random.random() is below the write
ratio, issue a put, otherwise issue a get.  The ratio is the configured
constant, PUT_RATIO in the source, a parameter here so that the configured
values 1 and 0 of the scenario claims can be instantiated. -/
def mixed_load (u : CacheUser) (ratio : ℚ) (c : Client) (d : RandomDraws) : Client :=
  if d.coin < ratio then put_request u c d else get_request u c d

/-- The single request one invocation of mixed_load issues, as a pure
function of pools, ratio and draws. -/
def emitted (u : CacheUser) (ratio : ℚ) (d : RandomDraws) : Request :=
  if d.coin < ratio then
    Request.post "/put"
      [("key", randomChoice u.key_pool d.keyIdx),
       ("value", randomChoice u.value_pool d.valIdx)] "/put"
  else
    Request.get ("/get?key=" ++ randomChoice u.key_pool d.keyIdx) "/get"

/-- Whether a request is a POST. -/
def isPut : Request → Bool
  | Request.post _ _ _ => true
  | Request.get _ _ => false

/-- Whether a request is a GET. -/
def isGet : Request → Bool
  | Request.post _ _ _ => false
  | Request.get _ _ => true

/-- One scheduled invocation of the task on the full generator state: the
user record and the client.  The method body contains no assignment, so the
user component is returned unchanged. -/
def invoke (ratio : ℚ) (s : CacheUser × Client) (d : RandomDraws) :
    CacheUser × Client :=
  (s.1, mixed_load s.1 ratio s.2 d)

/-- A run of the generator: the harness invokes the task once per element of
the draw list. -/
def runLoad (ratio : ℚ) (s : CacheUser × Client) (ds : List RandomDraws) :
    CacheUser × Client :=
  ds.foldl (invoke ratio) s

/-- The log of requests a run starting from a fresh client leaves behind. -/
def sentLog (u : CacheUser) (ratio : ℚ) (ds : List RandomDraws) : List Request :=
  (runLoad ratio (u, Client.mk []) ds).2.sent

lemma printableChars_length : printableChars.length = 100 := by decide

lemma mixed_load_sent (u : CacheUser) (ratio : ℚ) (c : Client) (d : RandomDraws) :
    (mixed_load u ratio c d).sent = c.sent ++ [emitted u ratio d] := by
  by_cases h : d.coin < ratio <;>
    simp [mixed_load, emitted, put_request, get_request, clientPost, clientGet, h]

lemma randomChoice_mem (pool : List String) (i : Nat) (h : pool ≠ []) :
    randomChoice pool i ∈ pool := by
  have hlen : 0 < pool.length := List.length_pos.mpr h
  have hidx : i % pool.length < pool.length := Nat.mod_lt _ hlen
  rw [randomChoice, List.getD_eq_getElem pool "" hidx]
  exact List.getElem_mem hidx

lemma runLoad_fst (ratio : ℚ) (s : CacheUser × Client) (ds : List RandomDraws) :
    (runLoad ratio s ds).1 = s.1 := by
  induction ds generalizing s with
  | nil => rfl
  | cons d ds ih => simpa [runLoad, List.foldl_cons, invoke] using ih (invoke ratio s d)

lemma runLoad_sent (ratio : ℚ) (u : CacheUser) (c : Client) (ds : List RandomDraws) :
    (runLoad ratio (u, c) ds).2.sent = c.sent ++ ds.map (emitted u ratio) := by
  induction ds generalizing c with
  | nil => simp [runLoad]
  | cons d ds ih =>
      have : invoke ratio (u, c) d = (u, mixed_load u ratio c d) := rfl
      simp only [runLoad, List.foldl_cons, this, List.map_cons]
      rw [show List.foldl (invoke ratio) (u, mixed_load u ratio c d) ds =
            runLoad ratio (u, mixed_load u ratio c d) ds from rfl,
          ih (mixed_load u ratio c d), mixed_load_sent]
      simp

lemma sentLog_eq_map (u : CacheUser) (ratio : ℚ) (ds : List RandomDraws) :
    sentLog u ratio ds = ds.map (emitted u ratio) := by
  rw [sentLog, runLoad_sent]
  rfl

/-- Removal of the hyphens of the canonical UUID layout. -/
def stripDashes (l : List Char) : List Char := l.filter (fun c => c != '-')

lemma hexVal_hexDigit : ∀ n, n < 16 → hexVal (hexDigit n) = n := by decide

lemma hexDigit_mem (n : Nat) : hexDigit n ∈ hexAlphabet := by
  by_cases h : n < hexAlphabet.length
  · rw [hexDigit, List.getD_eq_getElem _ _ h]
    exact List.getElem_mem h
  · rw [hexDigit, List.getD_eq_default _ _ (le_of_not_lt h)]
    decide

lemma ofHexPad_toHexPad (k : Nat) : ∀ n : Nat, ofHexPad (toHexPad k n) = n % 16 ^ k := by
  induction k with
  | zero =>
      intro n
      simp [toHexPad, ofHexPad, Nat.mod_one]
  | succ k ih =>
      intro n
      rw [toHexPad, ofHexPad, List.foldl_append, List.foldl_cons, List.foldl_nil,
          show List.foldl (fun a c => 16 * a + hexVal c) 0 (toHexPad k (n / 16)) =
            ofHexPad (toHexPad k (n / 16)) from rfl,
          ih (n / 16), hexVal_hexDigit (n % 16) (Nat.mod_lt n (by norm_num)),
          pow_succ' 16 k, Nat.mod_mul]
      ring

lemma toHexPad_mem (k : Nat) : ∀ (n : Nat), ∀ c ∈ toHexPad k n, c ∈ hexAlphabet := by
  induction k with
  | zero =>
      intro n c hc
      simp [toHexPad] at hc
  | succ k ih =>
      intro n c hc
      rw [toHexPad] at hc
      rcases List.mem_append.mp hc with h | h
      · exact ih _ c h
      · rw [List.mem_singleton.mp h]
        exact hexDigit_mem _

lemma reassemble (l : List Char) :
    l.take 8 ++ ((l.drop 8).take 4 ++ ((l.drop 12).take 4 ++
      ((l.drop 16).take 4 ++ l.drop 20))) = l := by
  have h16 : (l.drop 16).take 4 ++ l.drop 20 = l.drop 16 := by
    have h := List.take_append_drop 4 (l.drop 16)
    rwa [List.drop_drop] at h
  have h12 : (l.drop 12).take 4 ++ l.drop 16 = l.drop 12 := by
    have h := List.take_append_drop 4 (l.drop 12)
    rwa [List.drop_drop] at h
  have h8 : (l.drop 8).take 4 ++ l.drop 12 = l.drop 8 := by
    have h := List.take_append_drop 4 (l.drop 8)
    rwa [List.drop_drop] at h
  rw [h16, h12, h8, List.take_append_drop]

lemma stripDashes_uuidFormat (l : List Char) (h : ∀ c ∈ l, (c != '-') = true) :
    stripDashes (uuidFormat l) = l := by
  have hp : ∀ m k : Nat, ((l.drop m).take k).filter (fun c => c != '-') = (l.drop m).take k :=
    fun m k => List.filter_eq_self.mpr
      (fun c hc => h c (List.mem_of_mem_drop (List.mem_of_mem_take hc)))
  have ht : (l.take 8).filter (fun c => c != '-') = l.take 8 :=
    List.filter_eq_self.mpr (fun c hc => h c (List.mem_of_mem_take hc))
  have hd : (l.drop 20).filter (fun c => c != '-') = l.drop 20 :=
    List.filter_eq_self.mpr (fun c hc => h c (List.mem_of_mem_drop hc))
  have hdash : (('-' : Char) != '-') = false := by decide
  rw [stripDashes, uuidFormat, List.filter_append, List.filter_cons, hdash,
      List.filter_append, List.filter_cons, hdash, List.filter_append,
      List.filter_cons, hdash, List.filter_append, List.filter_cons, hdash,
      ht, hp 8 4, hp 12 4, hp 16 4, hd]
  simp only [Bool.false_eq_true, if_false]
  exact reassemble l

lemma uuid4Int_lt (r : Nat) : uuid4Int r < 2 ^ 128 := by
  rw [uuid4Int]
  refine Nat.or_lt_two_pow (lt_of_le_of_lt Nat.and_le_left ?_) (by decide)
  refine Nat.or_lt_two_pow (lt_of_le_of_lt Nat.and_le_left ?_) (by decide)
  exact Nat.mod_lt _ (by positivity)

lemma uuid4Str_inj {r1 r2 : Nat} (h : uuid4Str r1 = uuid4Str r2) :
    uuid4Int r1 = uuid4Int r2 := by
  have hlist : uuidFormat (toHexPad 32 (uuid4Int r1)) =
      uuidFormat (toHexPad 32 (uuid4Int r2))  := by
    have hdata := congrArg String.data h
    simpa [uuid4Str] using hdata
  have hnd : ∀ c ∈ hexAlphabet, (c != '-') = true := by decide
  have hmem : ∀ r : Nat, ∀ c ∈ toHexPad 32 (uuid4Int r), (c != '-') = true :=
    fun r c hc => hnd c (toHexPad_mem 32 _ c hc)
  have hhex : toHexPad 32 (uuid4Int r1) = toHexPad 32 (uuid4Int r2) := by
    rw [← stripDashes_uuidFormat _ (hmem r1), ← stripDashes_uuidFormat _ (hmem r2), hlist]
  have hdec := congrArg ofHexPad hhex
  rw [ofHexPad_toHexPad, ofHexPad_toHexPad,
      show (16 : Nat) ^ 32 = 2 ^ 128 by norm_num,
      Nat.mod_eq_of_lt (uuid4Int_lt r1), Nat.mod_eq_of_lt (uuid4Int_lt r2)] at hdec
  exact hdec

lemma mkKeyPool_length (kd : Nat → Nat) : (mkKeyPool kd).length = KEY_POOL_SIZE := by
  simp [mkKeyPool]

lemma mkValuePool_length (vd : Nat → Nat → Nat) :
    (mkValuePool vd).length = KEY_POOL_SIZE := by
  simp [mkValuePool]

lemma mkKeyPool_getD (kd : Nat → Nat) (i : Nat) (h : i < KEY_POOL_SIZE) :
    (mkKeyPool kd).getD i "" = uuid4Str (kd i) := by
  have hlen : i < (mkKeyPool kd).length := by rw [mkKeyPool_length]; exact h
  rw [List.getD_eq_getElem _ _ hlen]
  simp [mkKeyPool]

lemma mkKeyPool_ne_nil (kd : Nat → Nat) : mkKeyPool kd ≠ [] :=
  List.length_pos.mp (by rw [mkKeyPool_length]; norm_num [KEY_POOL_SIZE])

lemma mkValuePool_ne_nil (vd : Nat → Nat → Nat) : mkValuePool vd ≠ [] :=
  List.length_pos.mp (by rw [mkValuePool_length]; norm_num [KEY_POOL_SIZE])

lemma mkValue_length (vd : Nat → Nat) : (mkValue vd).length = VALUE_LENGTH := by
  simp [mkValue, String.length]

lemma mkValue_chars (vd : Nat → Nat) : ∀ c ∈ (mkValue vd).data, c ∈ printableChars := by
  intro c hc
  simp only [mkValue, List.mem_map, List.mem_range] at hc
  obtain ⟨j, hj, rfl⟩ := hc
  have hlt : vd j % printableChars.length < printableChars.length :=
    Nat.mod_lt _ (by rw [printableChars_length]; norm_num)
  rw [List.getD_eq_getElem _ _ hlt]
  exact List.getElem_mem hlt

lemma mem_mkValuePool (vd : Nat → Nat → Nat) (v : String) (h : v ∈ mkValuePool vd) :
    v.length = VALUE_LENGTH ∧ ∀ c ∈ v.data, c ∈ printableChars := by
  simp only [mkValuePool, List.mem_map, List.mem_range] at h
  obtain ⟨i, hi, rfl⟩ := h
  exact ⟨mkValue_length _, mkValue_chars _⟩

lemma initUser_key_pool (kd : Nat → Nat) (vd : Nat → Nat → Nat) :
    (initUser kd vd).key_pool = mkKeyPool kd := by
  simp [initUser]

lemma initUser_value_pool (kd : Nat → Nat) (vd : Nat → Nat → Nat) :
    (initUser kd vd).value_pool = mkValuePool vd := by
  simp [initUser]

lemma initUser_key_ne_nil (kd : Nat → Nat) (vd : Nat → Nat → Nat) :
    (initUser kd vd).key_pool ≠ [] := by
  rw [initUser_key_pool]
  exact mkKeyPool_ne_nil kd

lemma initUser_value_ne_nil (kd : Nat → Nat) (vd : Nat → Nat → Nat) :
    (initUser kd vd).value_pool ≠ [] := by
  rw [initUser_value_pool]
  exact mkValuePool_ne_nil vd

/-- Concrete four element user for the scenario witnesses. -/
def demoUser : CacheUser :=
  { key_pool := ["k0", "k1", "k2", "k3"], value_pool := ["v0", "v1", "v2", "v3"] }

/-- C1: on every invocation of the work unit mixed_load, if the fresh uniform
draw is below PUT_RATIO the generator performs a write, issuing a POST to /put
carrying the key selected by the key draw from the key pool and the value
selected by the independent value draw from the value pool; otherwise it
performs a read, issuing a GET carrying only the selected key. -/
theorem claim_C1 (u : CacheUser) (c : Client) (d : RandomDraws) :
    (d.coin < PUT_RATIO →
      mixed_load u PUT_RATIO c d =
        Client.mk (c.sent ++
          [Request.post "/put"
            [("key", randomChoice u.key_pool d.keyIdx),
             ("value", randomChoice u.value_pool d.valIdx)] "/put"])) ∧
    ( PUT_RATIO ≤ d.coin →
      mixed_load u PUT_RATIO c d =
        Client.mk (c.sent ++
          [Request.get ("/get?key=" ++ randomChoice u.key_pool d.keyIdx) "/get"])) := by
  constructor
  · intro h
    simp [mixed_load, put_request, clientPost, h]
  · intro h
    simp [mixed_load, get_request, clientGet, not_lt.mpr h]

theorem claim_C1_witness :
    (0 : ℚ) < PUT_RATIO ∧
    mixed_load demoUser PUT_RATIO (Client.mk []) ⟨0, 1, 2⟩ =
      Client.mk [Request.post "/put" [("key", "k1"), ("value", "v2")] "/put"] ∧
    PUT_RATIO ≤ (1 : ℚ) ∧
    mixed_load demoUser PUT_RATIO (Client.mk []) ⟨1, 1, 2⟩ =
      Client.mk [Request.get ("/get?key=" ++ "k1") "/get"] := by
  have h0 : (0 : ℚ) < PUT_RATIO := by norm_num [ PUT_RATIO]
  have h1 : PUT_RATIO ≤ (1 : ℚ) := by norm_num [ PUT_RATIO]
  refine ⟨h0, ?_, h1, ?_⟩
  · have happ := (claim_C1 demoUser (Client.mk []) ⟨0, 1, 2⟩).1 h0
    simpa [demoUser, randomChoice] using happ
  · have happ := (claim_C1 demoUser (Client.mk []) ⟨1, 1, 2⟩).2 h1
    simpa [demoUser, randomChoice] using happ

/-- C2: with write ratio 1, every invocation issues a POST to /put whose body
key is an element of the key pool and whose body value is an element of the
value pool, and no GET is ever issued: any run has as many POST calls as
invocations and zero GET calls. -/
theorem claim_C2 (u : CacheUser) (ds : List RandomDraws)
    (hk : u.key_pool ≠ []) (hv : u.value_pool ≠ [])
    (hcoin : ∀ d ∈ ds, d.coin < 1) :
    (∀ r ∈ sentLog u 1 ds, ∃ k ∈ u.key_pool, ∃ v ∈ u.value_pool,
        r = Request.post "/put" [("key", k), ("value", v)] "/put") ∧
    (sentLog u 1 ds).countP isPut = ds.length ∧
    (sentLog u 1 ds).countP isGet = 0 := by
  have hem : ∀ d ∈ ds, emitted u 1 d =
      Request.post "/put"
        [("key", randomChoice u.key_pool d.keyIdx),
         ("value", randomChoice u.value_pool d.valIdx)] "/put" := by
    intro d hd
    simp [emitted, hcoin d hd]
  refine ⟨?_, ?_, ?_⟩
  · intro r hr
    rw [sentLog_eq_map] at hr
    obtain ⟨d, hd, rfl⟩ := List.mem_map.mp hr
    exact ⟨_, randomChoice_mem _ _ hk, _, randomChoice_mem _ _ hv, by rw [hem d hd]⟩
  · have hall : ∀ r ∈ ds.map (emitted u 1), isPut r = true := by
      intro r hr
      obtain ⟨d, hd, rfl⟩ := List.mem_map.mp hr
      rw [hem d hd]
      rfl
    rw [sentLog_eq_map, List.countP_eq_length.mpr hall, List.length_map]
  · have hnone : ∀ r ∈ ds.map (emitted u 1), ¬ isGet r = true := by
      intro r hr
      obtain ⟨d, hd, rfl⟩ := List.mem_map.mp hr
      rw [hem d hd]
      simp [isGet]
    rw [sentLog_eq_map, List.countP_eq_zero.mpr hnone]

theorem claim_C2_witness :
    (∀ r ∈ sentLog demoUser 1 [⟨0, 0, 1⟩, ⟨1/2, 3, 2⟩, ⟨1/4, 2, 0⟩],
        ∃ k ∈ demoUser.key_pool, ∃ v ∈ demoUser.value_pool,
          r = Request.post "/put" [("key", k), ("value", v)] "/put") ∧
    (sentLog demoUser 1 [⟨0, 0, 1⟩, ⟨1/2, 3, 2⟩, ⟨1/4, 2, 0⟩]).countP isPut = 3 ∧
    (sentLog demoUser 1 [⟨0, 0, 1⟩, ⟨1/2, 3, 2⟩, ⟨1/4, 2, 0⟩]).countP isGet = 0 :=
  claim_C2 demoUser [⟨0, 0, 1⟩, ⟨1/2, 3, 2⟩, ⟨1/4, 2, 0⟩]
    (by simp [demoUser]) (by simp [demoUser])
    (by intro d hd; fin_cases hd <;> norm_num)

/-- C3: with write ratio 0, every invocation issues a GET whose url is /get
with the single query parameter key set to an element of the key pool, and no
POST is ever issued: any run has as many GET calls as invocations and zero
POST calls. -/
theorem claim_C3 (u : CacheUser) (ds : List RandomDraws)
    (hk : u.key_pool ≠ [])
    (hcoin : ∀ d ∈ ds, 0 ≤ d.coin) :
    (∀ r ∈ sentLog u 0 ds, ∃ k ∈ u.key_pool,
        r = Request.get ("/get?key=" ++ k) "/get") ∧
    (sentLog u 0 ds).countP isGet = ds.length ∧
    (sentLog u 0 ds).countP isPut = 0 := by
  have hem : ∀ d ∈ ds, emitted u 0 d =
      Request.get ("/get?key=" ++ randomChoice u.key_pool d.keyIdx) "/get" := by
    intro d hd
    simp [emitted, not_lt.mpr (hcoin d hd)]
  refine ⟨?_, ?_, ?_⟩
  · intro r hr
    rw [sentLog_eq_map] at hr
    obtain ⟨d, hd, rfl⟩ := List.mem_map.mp hr
    exact ⟨_, randomChoice_mem _ _ hk, by rw [hem d hd]⟩
  · have hall : ∀ r ∈ ds.map (emitted u 0), isGet r = true := by
      intro r hr
      obtain ⟨d, hd, rfl⟩ := List.mem_map.mp hr
      rw [hem d hd]
      rfl
    rw [sentLog_eq_map, List.countP_eq_length.mpr hall, List.length_map]
  · have hnone : ∀ r ∈ ds.map (emitted u 0), ¬ isPut r = true := by
      intro r hr
      obtain ⟨d, hd, rfl⟩ := List.mem_map.mp hr
      rw [hem d hd]
      simp [isPut]
    rw [sentLog_eq_map, List.countP_eq_zero.mpr hnone]

theorem claim_C3_witness :
    (∀ r ∈ sentLog demoUser 0 [⟨0, 0, 1⟩, ⟨1/2, 3, 2⟩, ⟨1/4, 2, 0⟩],
        ∃ k ∈ demoUser.key_pool, r = Request.get ("/get?key=" ++ k) "/get") ∧
    (sentLog demoUser 0 [⟨0, 0, 1⟩, ⟨1/2, 3, 2⟩, ⟨1/4, 2, 0⟩]).countP isGet = 3 ∧
    (sentLog demoUser 0 [⟨0, 0, 1⟩, ⟨1/2, 3, 2⟩, ⟨1/4, 2, 0⟩]).countP isPut = 0 :=
  claim_C3 demoUser [⟨0, 0, 1⟩, ⟨1/2, 3, 2⟩, ⟨1/4, 2, 0⟩]
    (by simp [demoUser])
    (by intro d hd; fin_cases hd <;> norm_num)

/-- C4: every request the generator emits, read or write, carries a key that
is an element of the key pool built at startup; no key outside the pool ever
appears in a request. -/
theorem claim_C4 (kd : Nat → Nat) (vd : Nat → Nat → Nat) (ratio : ℚ)
    (c : Client) (d : RandomDraws) :
    (∃ k ∈ (initUser kd vd).key_pool, ∃ v,
        (mixed_load (initUser kd vd) ratio c d).sent =
          c.sent ++ [Request.post "/put" [("key", k), ("value", v)] "/put"]) ∨
    (∃ k ∈ (initUser kd vd).key_pool,
        (mixed_load (initUser kd vd) ratio c d).sent =
          c.sent ++ [Request.get ("/get?key=" ++ k) "/get"]) := by
  by_cases h : d.coin < ratio
  · left
    refine ⟨randomChoice (initUser kd vd).key_pool d.keyIdx,
      randomChoice_mem _ _ (initUser_key_ne_nil kd vd),
      randomChoice (initUser kd vd).value_pool d.valIdx, ?_⟩
    rw [mixed_load_sent]
    simp [emitted, h]
  · right
    refine ⟨randomChoice (initUser kd vd).key_pool d.keyIdx,
      randomChoice_mem _ _ (initUser_key_ne_nil kd vd), ?_⟩
    rw [mixed_load_sent]
    simp [emitted, h]

/-- C5: every write carries a value that is an element of the value pool, and
every element of the value pool is a string of exactly VALUE_LENGTH printable
characters, so every written value has the configured fixed length. -/
theorem claim_C5 (kd : Nat → Nat) (vd : Nat → Nat → Nat) (ratio : ℚ)
    (c : Client) (d : RandomDraws) (h : d.coin < ratio) :
    (∃ v ∈ (initUser kd vd).value_pool,
        (mixed_load (initUser kd vd) ratio c d).sent =
          c.sent ++ [Request.post "/put"
            [("key", randomChoice (initUser kd vd).key_pool d.keyIdx),
             ("value", v)] "/put"]) ∧
    (∀ v ∈ (initUser kd vd).value_pool,
        v.length = VALUE_LENGTH ∧ ∀ ch ∈ v.data, ch ∈ printableChars) := by
  constructor
  · refine ⟨randomChoice (initUser kd vd).value_pool d.valIdx,
      randomChoice_mem _ _ (initUser_value_ne_nil kd vd), ?_⟩
    rw [mixed_load_sent]
    simp [emitted, h]
  · intro v hv
    rw [initUser_value_pool] at hv
    exact mem_mkValuePool vd v hv

theorem claim_C5_witness :
    (0 : ℚ) < 1 ∧
    ((∃ v ∈ (initUser (fun _ => 0) (fun _ _ => 0)).value_pool,
        (mixed_load (initUser (fun _ => 0) (fun _ _ => 0)) 1 (Client.mk []) ⟨0, 0, 0⟩).sent =
          [] ++ [Request.post "/put"
            [("key", randomChoice (initUser (fun _ => 0) (fun _ _ => 0)).key_pool 0),
             ("value", v)] "/put"]) ∧
    (∀ v ∈ (initUser (fun _ => 0) (fun _ _ => 0)).value_pool,
        v.length = VALUE_LENGTH ∧ ∀ ch ∈ v.data, ch ∈ printableChars)) :=
  ⟨by norm_num, claim_C5 (fun _ => 0) (fun _ _ => 0) 1 (Client.mk []) ⟨0, 0, 0⟩ (by norm_num)⟩

/-- C6: the key pool and the value pool have equal size, and no sequence of
invocations of the work unit mutates either pool: after any run the user
state still holds exactly the pools built at initialization. -/
theorem claim_C6 (kd : Nat → Nat) (vd : Nat → Nat → Nat) (ratio : ℚ)
    (c : Client) (ds : List RandomDraws) :
    (initUser kd vd).key_pool.length = (initUser kd vd).value_pool.length ∧
    (runLoad ratio (initUser kd vd, c) ds).1.key_pool = mkKeyPool kd ∧
    (runLoad ratio (initUser kd vd, c) ds).1.value_pool = mkValuePool vd := by
  refine ⟨?_, ?_, ?_⟩
  · rw [initUser_key_pool, initUser_value_pool, mkKeyPool_length, mkValuePool_length]
  · rw [runLoad_fst]
    exact initUser_key_pool kd vd
  · rw [runLoad_fst]
    exact initUser_value_pool kd vd

/-- C7: every invocation of the work unit leaves the user state unchanged and
appends exactly one request to the client log: never zero, never more than
one, and the request is the only side effect. -/
theorem claim_C7 (u : CacheUser) (ratio : ℚ) (c : Client) (d : RandomDraws) :
    (invoke ratio (u, c) d).1 = u ∧
    (∃ r, (invoke ratio (u, c) d).2.sent = c.sent ++ [r]) ∧
    (invoke ratio (u, c) d).2.sent.length = c.sent.length + 1 := by
  refine ⟨rfl, ⟨emitted u ratio d, ?_⟩, ?_⟩
  · exact mixed_load_sent u ratio c d
  · rw [show (invoke ratio (u, c) d).2 = mixed_load u ratio c d from rfl,
        mixed_load_sent]
    simp

/-- C8: the generator emits exactly two request shapes: a POST to /put whose
JSON body has exactly the two string fields key and value, or a GET to the
url made of /get and the single query parameter key, with no body. -/
theorem claim_C8 (u : CacheUser) (ratio : ℚ) (c : Client) (d : RandomDraws) :
    (∃ k v, (mixed_load u ratio c d).sent =
        c.sent ++ [Request.post "/put" [("key", k), ("value", v)] "/put"]) ∨
    (∃ k, (mixed_load u ratio c d).sent =
        c.sent ++ [Request.get ("/get?key=" ++ k) "/get"]) := by
  by_cases h : d.coin < ratio
  · left
    refine ⟨randomChoice u.key_pool d.keyIdx, randomChoice u.value_pool d.valIdx, ?_⟩
    rw [mixed_load_sent]
    simp [emitted, h]
  · right
    refine ⟨randomChoice u.key_pool d.keyIdx, ?_⟩
    rw [mixed_load_sent]
    simp [emitted, h]

/-- C10: the emitted request is a deterministic function of the pools, the
ratio and the draw outcomes: two invocations that see equal pools, the same
ratio and the same draws emit identical requests, whatever client log each
started from; no hidden per user or per invocation state influences it. -/
theorem claim_C10 (u1 u2 : CacheUser) (ratio : ℚ) (c1 c2 : Client)
    (d : RandomDraws)
    (hk : u1.key_pool = u2.key_pool) (hv : u1.value_pool = u2.value_pool) :
    emitted u1 ratio d = emitted u2 ratio d ∧
    (mixed_load u1 ratio c1 d).sent.drop c1.sent.length =
      (mixed_load u2 ratio c2 d).sent.drop c2.sent.length := by
  have hu : u1 = u2 := by
    cases u1
    cases u2
    simp_all
  subst hu
  refine ⟨rfl, ?_⟩
  rw [mixed_load_sent, mixed_load_sent, List.drop_left, List.drop_left]

theorem claim_C10_witness :
    emitted demoUser PUT_RATIO ⟨0, 1, 2⟩ = emitted demoUser PUT_RATIO ⟨0, 1, 2⟩ ∧
    (mixed_load demoUser PUT_RATIO (Client.mk []) ⟨0, 1, 2⟩).sent.drop 0 =
      (mixed_load demoUser PUT_RATIO
        (Client.mk [Request.get ("/get?key=" ++ "k0") "/get"]) ⟨0, 1, 2⟩).sent.drop 1 := by
  have happ := claim_C10 demoUser demoUser PUT_RATIO (Client.mk [])
    (Client.mk [Request.get ("/get?key=" ++ "k0") "/get"]) ⟨0, 1, 2⟩ rfl rfl
  simpa using happ

/-- C9 counterexample: the key pool construction does not force pairwise
distinct keys: when the uuid module draws the same 128 random bits for two
indices, the keys at those indices coincide.  At the draw stream that is
constantly zero, the keys at the distinct indices 0 and 1 are equal. -/
theorem claim_C9_cex :
    (0 : Nat) ≠ 1 ∧
    (mkKeyPool (fun _ => 0)).getD 0 "" = (mkKeyPool (fun _ => 0)).getD 1 "" := by
  refine ⟨by norm_num, ?_⟩
  rw [mkKeyPool_getD _ 0 (by norm_num [KEY_POOL_SIZE]),
      mkKeyPool_getD _ 1 (by norm_num [KEY_POOL_SIZE])]

/-- C9 amended: the key pool is an ordered sequence of exactly KEY_POOL_SIZE
strings, and the keys at two distinct indices are distinct whenever the
version and variant adjusted 128 bit uuid integers of the random draws at
those indices differ; a fresh uuid4 draw makes that overwhelmingly probable,
but the code does not enforce it. -/
theorem claim_C9 (kd : Nat → Nat) (i j : Nat)
    (hi : i < KEY_POOL_SIZE) (hj : j < KEY_POOL_SIZE)
    (hne : uuid4Int (kd i) ≠ uuid4Int (kd j)) :
    (mkKeyPool kd).length = KEY_POOL_SIZE ∧
    (mkKeyPool kd).getD i "" ≠ (mkKeyPool kd).getD j "" := by
  refine ⟨mkKeyPool_length kd, ?_⟩
  rw [mkKeyPool_getD _ _ hi, mkKeyPool_getD _ _ hj]
  intro h
  exact hne (uuid4Str_inj h)

theorem claim_C9_witness :
    uuid4Int 0 ≠ uuid4Int 1 ∧
    ((mkKeyPool (fun i => i)).length = KEY_POOL_SIZE ∧
     (mkKeyPool (fun i => i)).getD 0 "" ≠ (mkKeyPool (fun i => i)).getD 1 "") := by
  have h : uuid4Int 0 ≠ uuid4Int 1 := by decide
  exact ⟨h, claim_C9 (fun i => i) 0 1 (by norm_num [KEY_POOL_SIZE])
    (by norm_num [KEY_POOL_SIZE]) h⟩

end KVCache
